import Mathlib

/-!
# node-gemfire: the Region proxy (`src/region.cpp`)

A shallow embedding of `region.cpp`.  The process state the file touches is made
explicit in `World`: the contents of the native regions, the log of calls made on
native handles and on the value converters, the file-level globals
(`cacheListenerSet`, `eventMutex`, `callbacks`), the `data` pointer of the
`uv_async_t` and the log of host callbacks invoked through `NanMakeCallback`.
A host callback has a body (`HostCode`): the calls it makes back into this module,
`onPut` among them, so the array `callbacks["put"]` can grow while it is walked.

Everything `region.cpp` only calls (V8 conversions, the converters declared in
`conversions.hpp`, `Cache` unwrapping) is collected in `Env`.
-/

namespace NodeGemfire

/-- Identity of a native region handle (`gemfire::RegionPtr`). -/
abbrev RegionPtr := Nat

/-- Identity of a native cache handle (`gemfire::CachePtr`). -/
abbrev CachePtr := Nat

/-- The `event` record read by `callPutCallbacks` (`incomingEvent->key`,
`incomingEvent->value`); its declaration lives in `event.hpp`. -/
structure Event where
  key : String
  value : String
deriving DecidableEq, Repr

/-- The collaborators of `region.cpp`, over host values `V` (`Handle<Value>`) and
native cacheable values `C` (a non-null `CacheablePtr`). -/
structure Env (V C : Type) where
  /-- `NanUndefined()`; also what `args[i]` yields past the last argument. -/
  undefined : V
  /-- `*String::Utf8Value(x)`. -/
  utf8Value : V → String
  /-- `*NanAsciiString(x)`. -/
  asciiString : V → String
  /-- `*String::Utf8Value(x->ToDetailString())`. -/
  toDetailString : V → String
  /-- `x->ToObject()`. -/
  toObject : V → V
  /-- `ObjectWrap::Unwrap<Cache>(handle)->cachePtr`. -/
  unwrapCache : V → CachePtr
  /-- `regionPtr->getCache()`. -/
  getCache : RegionPtr → CachePtr
  /-- `gemfireValueFromV8(value, cachePtr)` of `conversions.hpp`; `none` is `NULLPTR`. -/
  gemfireValueFromV8 : V → CachePtr → Option C
  /-- What `v8ValueFromGemfire` of `conversions.hpp` makes of a non-null `CacheablePtr`. -/
  deserialize : C → V
  /-- The contents of a freshly allocated `new event`. -/
  newEvent : Event

/-- The C++ object behind a region wrapper (`class Region` in `region.hpp`). -/
structure Region (V : Type) where
  cacheHandle : V
  regionPtr : RegionPtr
deriving DecidableEq, Repr

/-- Calls `region.cpp` makes on native handles and on the converters, in the order made. -/
inductive Call (V C : Type) where
  | getRegion (cachePtr : CachePtr) (name : String)
  | getCache (regionPtr : RegionPtr)
  | gemfireValueFromV8 (value : V) (cachePtr : CachePtr)
  | v8ValueFromGemfire (valuePtr : Option C)
  | put (regionPtr : RegionPtr) (key : String) (value : C)
  | get (regionPtr : RegionPtr) (key : String)
  | clear (regionPtr : RegionPtr)
  | registerAllKeys (regionPtr : RegionPtr)
  | unregisterAllKeys (regionPtr : RegionPtr)
  | setCacheListener (regionPtr : RegionPtr)
deriving DecidableEq, Repr

/-- One `NanMakeCallback(ctx->Global(), putCallback, 2, argv)`: the function called,
its two arguments, and the state of `eventMutex` and of `async->data` when it was called. -/
structure Invocation (V : Type) where
  callback : V
  key : String
  newValue : String
  mutexLocked : Bool
  asyncData : Option Event
deriving DecidableEq, Repr

/-- Process state seen by `region.cpp`. -/
structure World (V C : Type) where
  /-- `cachePtr->getRegion(name)`; `none` is `NULLPTR`. -/
  regions : CachePtr → String → Option RegionPtr
  /-- Entries of each native region: `regionPtr->get(key)`; `none` is `NULLPTR`. -/
  store : RegionPtr → String → Option C
  /-- Log of calls on native handles and converters. -/
  calls : List (Call V C)
  /-- The global `bool cacheListenerSet`. -/
  cacheListenerSet : Bool
  /-- Whether `*eventMutex` is held. -/
  eventMutexLocked : Bool
  /-- The array `callbacks["put"]`. -/
  putCallbacks : List V
  /-- The pointer `async->data` of the one `uv_async_t`; `none` is a null pointer. -/
  asyncData : Option Event
  /-- Log of host callbacks invoked. -/
  invocations : List (Invocation V)

variable {V C : Type}

/-- Append a call to the log. -/
def World.record (w : World V C) (c : Call V C) : World V C :=
  { w with calls := w.calls ++ [c] }

/-- The cache client's `regionPtr->put(keyPtr, valuePtr)`, a call into the external gfcpp
library, with the contract §6 of the spec gives the region handle ("get(key)→value|absent,
put(key,value), clear()"): the entry for `key` in that region becomes `value`. -/
def World.regionPut (w : World V C) (regionPtr : RegionPtr) (key : String) (value : C) :
    World V C :=
  { w with
    store := fun r k => if r = regionPtr ∧ k = key then some value else w.store r k
    calls := w.calls ++ [Call.put regionPtr key value] }

/-- The cache client's `regionPtr->clear()`, a call into the external gfcpp library, with
the contract of §4.1 of the spec: "all entries in the region removed". -/
def World.regionClear (w : World V C) (regionPtr : RegionPtr) : World V C :=
  { w with
    store := fun r k => if r = regionPtr then none else w.store r k
    calls := w.calls ++ [Call.clear regionPtr] }

/-- The expression `args[i]`: the undefined value past `args.Length()`. -/
def argAt (env : Env V C) (args : List V) (i : Nat) : V :=
  args.getD i env.undefined

/-- Modelled from the spec: `v8ValueFromGemfire` is declared in `conversions.hpp`, which is
not among the sources.  §4.1: `get` "converts the returned native value back via the
external deserializer; returns a "no value" sentinel (never an error) if the key is
absent".  A null pointer becomes the undefined value, anything else is deserialized. -/
def v8ValueFromGemfire (env : Env V C) : Option C → V
  | none => env.undefined
  | some value => env.deserialize value

/-- What `Region::GetRegion` hands back: `NanReturnUndefined()` or the new wrapper object,
described by the `Region` it wraps. -/
inductive RegionHandle (V : Type) where
  | undefined
  | wrapping (region : Region V)
deriving DecidableEq, Repr

/-- `Region::Init`, as far as the globals go: `callbacks` becomes `{ put: [] }`. -/
def Region.Init (w : World V C) : World V C :=
  { w with putCallbacks := [] }

/-- `Region::GetRegion` (region.cpp 65-87). -/
def Region.GetRegion (env : Env V C) (args : List V) (w : World V C) :
    World V C × RegionHandle V :=
  let cacheHandle := env.toObject (argAt env args 0)
  let cachePtr := env.unwrapCache cacheHandle
  let name := env.asciiString (argAt env args 1)
  let regionPtr := w.regions cachePtr name
  let w1 := w.record (Call.getRegion cachePtr name)
  match regionPtr with
  | none => (w1, RegionHandle.undefined)
  | some regionPtr => (w1, RegionHandle.wrapping { cacheHandle := cacheHandle, regionPtr := regionPtr })

/-- `Region::Clear` (region.cpp 89-97); the returned `true` is left out. -/
def Region.Clear (region : Region V) (w : World V C) : World V C :=
  w.regionClear region.regionPtr

/-- `Region::Put` (region.cpp 99-125).  `Except.error msg` is `NanThrowError(msg)` followed
by `NanReturnUndefined()`; `Except.ok v` is `NanReturnValue(v)`. -/
def Region.Put (env : Env V C) (region : Region V) (args : List V) (w : World V C) :
    World V C × Except String V :=
  if args.length ≠ 2 then
    (w, Except.error "put must be called with a key and a value")
  else
    let key := env.utf8Value (argAt env args 0)
    let regionPtr := region.regionPtr
    let cachePtr := env.getCache regionPtr
    let w1 := w.record (Call.getCache regionPtr)
    let valuePtr := env.gemfireValueFromV8 (argAt env args 1) cachePtr
    let w2 := w1.record (Call.gemfireValueFromV8 (argAt env args 1) cachePtr)
    match valuePtr with
    | none =>
      (w2, Except.error ("Unable to put value " ++ env.toDetailString (argAt env args 1)))
    | some value =>
      (w2.regionPut regionPtr key value, Except.ok (argAt env args 1))

/-- `Region::Get` (region.cpp 127-139). -/
def Region.Get (env : Env V C) (region : Region V) (args : List V) (w : World V C) :
    World V C × Except String V :=
  let regionPtr := region.regionPtr
  let key := env.utf8Value (argAt env args 0)
  let valuePtr := w.store regionPtr key
  let w1 := w.record (Call.get regionPtr key)
  let w2 := w1.record (Call.v8ValueFromGemfire valuePtr)
  (w2, Except.ok (v8ValueFromGemfire env valuePtr))

/-- `Region::RegisterAllKeys` (region.cpp 141-150); the returned `true` is left out. -/
def Region.RegisterAllKeys (region : Region V) (w : World V C) : World V C :=
  w.record (Call.registerAllKeys region.regionPtr)

/-- `Region::UnregisterAllKeys` (region.cpp 152-161); the returned `true` is left out. -/
def Region.UnregisterAllKeys (region : Region V) (w : World V C) : World V C :=
  w.record (Call.unregisterAllKeys region.regionPtr)

/-- `setCacheListener` (region.cpp 193-209). -/
def setCacheListener (env : Env V C) (regionPtr : RegionPtr) (w : World V C) : World V C :=
  if !w.cacheListenerSet then
    let w1 := { w with asyncData := some env.newEvent }
    let w2 := { w1 with eventMutexLocked := false }
    let w3 := w2.record (Call.setCacheListener regionPtr)
    { w3 with cacheListenerSet := true }
  else
    w

/-- `Region::OnPut` (region.cpp 211-227); the returned `true` is left out. -/
def Region.OnPut (env : Env V C) (region : Region V) (args : List V) (w : World V C) :
    World V C :=
  let regionPtr := region.regionPtr
  let w1 := setCacheListener env regionPtr w
  let callback := argAt env args 0
  { w1 with putCallbacks := w1.putCallbacks ++ [callback] }

/-- A call host code makes on this module: `getRegion` on a cache, or a method of a region
wrapper. -/
inductive HostCall (V : Type) where
  | getRegion (args : List V)
  | put (region : Region V) (args : List V)
  | get (region : Region V) (args : List V)
  | clear (region : Region V)
  | registerAllKeys (region : Region V)
  | unregisterAllKeys (region : Region V)
  | onPut (region : Region V) (args : List V)

/-- The world after one host call. -/
def HostCall.run (env : Env V C) : HostCall V → World V C → World V C
  | HostCall.getRegion args, w => (Region.GetRegion env args w).1
  | HostCall.put region args, w => (Region.Put env region args w).1
  | HostCall.get region args, w => (Region.Get env region args w).1
  | HostCall.clear region, w => Region.Clear region w
  | HostCall.registerAllKeys region, w => Region.RegisterAllKeys region w
  | HostCall.unregisterAllKeys region, w => Region.UnregisterAllKeys region w
  | HostCall.onPut region args, w => Region.OnPut env region args w

/-- The world after a sequence of host calls, first to last. -/
def runCalls (env : Env V C) (ops : List (HostCall V)) (w : World V C) : World V C :=
  ops.foldl (fun acc op => op.run env acc) w

/-- Whether a host call writes the entry `key` of the native region `regionPtr`: a `put`
that reaches `regionPtr->put` with that key, or a `clear` of that region. -/
def HostCall.writesTo (env : Env V C) (regionPtr : RegionPtr) (key : String) :
    HostCall V → Bool
  | HostCall.put region args =>
    decide (args.length = 2) && decide (region.regionPtr = regionPtr) &&
      decide (env.utf8Value (argAt env args 0) = key) &&
      (env.gemfireValueFromV8 (argAt env args 1) (env.getCache region.regionPtr)).isSome
  | HostCall.clear region => decide (region.regionPtr = regionPtr)
  | _ => false

/-- Successive `Region::OnPut` calls, each a wrapper and its argument list. -/
def runOnPuts (env : Env V C) (registrations : List (Region V × List V)) (w : World V C) :
    World V C :=
  registrations.foldl (fun acc r => Region.OnPut env r.1 r.2 acc) w

/-- Whether a host call registers a callback. -/
def HostCall.registers : HostCall V → Bool
  | HostCall.onPut _ _ => true
  | _ => false

/-- The bodies of the host functions: the calls the function `callback` makes on this
module, in order, when it is called with `(key, newValue)` in the world `w`.  Host code
reaches the state of `region.cpp` through these calls only. -/
abbrev HostCode (V C : Type) := V → String → String → World V C → List (HostCall V)

/-- The log entry of a call of `putCallback` with `(key, newValue)` made in the world `w`. -/
def World.invocation (w : World V C) (putCallback : V) (key newValue : String) :
    Invocation V where
  callback := putCallback
  key := key
  newValue := newValue
  mutexLocked := w.eventMutexLocked
  asyncData := w.asyncData

/-- `NanMakeCallback(ctx->Global(), putCallback, 2, { NanNew(key), NanNew(newValue) })`:
the call is logged together with the lock and slot state it happens in, then the body of
the host function runs. -/
def NanMakeCallback (env : Env V C) (host : HostCode V C) (putCallback : V)
    (key newValue : String) (w : World V C) : World V C :=
  let entered := { w with
    invocations := w.invocations ++ [w.invocation putCallback key newValue] }
  runCalls env (host putCallback key newValue entered) entered

/-- Where a dispatch stands: the world reached, and whether the function has returned or
is still inside its loop after the iterations it was given. -/
structure Run (V C : Type) where
  world : World V C
  returned : Bool

/-- The `for` loop of `callPutCallbacks` from index `i` on, for at most `fuel` iterations.
`putCallbacks->Length()` is read before every iteration from the live array
`callbacks["put"]`, the one `Region::OnPut` appends to. -/
def callPutCallbacksLoop (env : Env V C) (host : HostCode V C) (key newValue : String) :
    Nat → Nat → World V C → Run V C
  | 0, i, w =>
    if i < w.putCallbacks.length then
      { world := w, returned := false }
    else
      { world := w, returned := true }
  | fuel + 1, i, w =>
    if h : i < w.putCallbacks.length then
      let putCallback := w.putCallbacks.get ⟨i, h⟩
      callPutCallbacksLoop env host key newValue fuel (i + 1)
        (NanMakeCallback env host putCallback key newValue w)
    else
      { world := w, returned := true }

/-- `callPutCallbacks` (region.cpp 163-183), for at most `fuel` iterations of its loop. -/
def callPutCallbacks (env : Env V C) (host : HostCode V C) (fuel : Nat)
    (incomingEvent : Event) (w : World V C) : Run V C :=
  let key := incomingEvent.key
  let newValue := incomingEvent.value
  callPutCallbacksLoop env host key newValue fuel 0 w

/-- `doWork` (region.cpp 185-191), for at most `fuel` iterations of the dispatch loop.
`uv_mutex_lock` returns with the mutex held.  With a null `async->data` the reads of
`incomingEvent->key` have no defined result: `none`.  The mutex is unlocked once
`callPutCallbacks` has returned. -/
def doWork (env : Env V C) (host : HostCode V C) (fuel : Nat) (w : World V C) :
    Option (Run V C) :=
  let w1 := { w with eventMutexLocked := true }
  match w1.asyncData with
  | none => none
  | some incomingEvent =>
    let dispatched := callPutCallbacks env host fuel incomingEvent w1
    if dispatched.returned then
      some { world := { dispatched.world with eventMutexLocked := false }, returned := true }
    else
      some dispatched

/-- What a dispatch of the event `(key, newValue)`, started at index `i` in the world `w`
and given `fuel` iterations, has done when it stands at `r`: the lock and the slot are as
they were, the array has only grown, every call made carried `(key, newValue)` and saw the
lock and slot of `w`; a dispatch that has returned called the array's elements from `i`
on, one after the other, and one that has not has made `fuel` calls. -/
def Dispatched (key newValue : String) (fuel i : Nat) (w : World V C) (r : Run V C) : Prop :=
  ∃ (invoked : List (Invocation V)) (later : List V),
    r.world.eventMutexLocked = w.eventMutexLocked ∧
    r.world.asyncData = w.asyncData ∧
    r.world.putCallbacks = w.putCallbacks ++ later ∧
    r.world.invocations = w.invocations ++ invoked ∧
    (∀ inv ∈ invoked, inv.key = key ∧ inv.newValue = newValue ∧
      inv.mutexLocked = w.eventMutexLocked ∧ inv.asyncData = w.asyncData) ∧
    (r.returned = true →
      invoked.map (fun inv => inv.callback) = (w.putCallbacks ++ later).drop i) ∧
    (r.returned = false → invoked.length = fuel)

/-- The process before any call: empty regions, nothing logged, `cacheListenerSet = false`,
no `uv_async_t` yet. -/
def World.start : World V C where
  regions := fun _ _ => none
  store := fun _ _ => none
  calls := []
  cacheListenerSet := false
  eventMutexLocked := false
  putCallbacks := []
  asyncData := none
  invocations := []

/-- Host values used to run the definitions on concrete inputs. -/
inductive JsValue where
  | undefined
  | string (s : String)
  | function (id : Nat)
  | object (id : Nat)
deriving DecidableEq, Repr

/-- The text of a `JsValue`. -/
def JsValue.text : JsValue → String
  | JsValue.undefined => "undefined"
  | JsValue.string s => s
  | JsValue.function _ => "function () {}"
  | JsValue.object _ => "[object Object]"

/-- A concrete environment: strings are the supported values and are stored as they are,
the object numbered `n` wraps the cache `n`, every region belongs to cache `0`. -/
def sampleEnv : Env JsValue String where
  undefined := JsValue.undefined
  utf8Value := JsValue.text
  asciiString := JsValue.text
  toDetailString := JsValue.text
  toObject := fun v => v
  unwrapCache := fun v => match v with
    | JsValue.object n => n
    | _ => 0
  getCache := fun _ => 0
  gemfireValueFromV8 := fun v _ => match v with
    | JsValue.string s => some s
    | _ => none
  deserialize := JsValue.string
  newEvent := { key := "", value := "" }

/-- A wrapper of the native region `7`, obtained from the cache object `0`. -/
def sampleRegion : Region JsValue :=
  { cacheHandle := JsValue.object 0, regionPtr := 7 }

/-- A world in which cache `0` has one region, named "r", with handle `7`. -/
def sampleWorld : World JsValue String :=
  { (World.start : World JsValue String) with
    regions := fun c n => if c = 0 ∧ n = "r" then some 7 else none }

/-- The world after `Region::Init` and one `onPut(function 1)` on `sampleRegion`, with the
payload ("x", "1") in the slot, as the listener leaves it before waking the host thread. -/
def pendingWorld : World JsValue String :=
  { Region.OnPut sampleEnv sampleRegion [JsValue.function 1] (Region.Init World.start) with
    asyncData := some { key := "x", value := "1" } }

/-- Host code in which function 1 registers function 2 on `sampleRegion` each time it is
called, and no other function calls this module. -/
def sampleHost : HostCode JsValue String := fun callback _ _ _ =>
  match callback with
  | JsValue.function 1 => [HostCall.onPut sampleRegion [JsValue.function 2]]
  | _ => []

/-- Host code in which no function calls this module. -/
def inertHost : HostCode JsValue String := fun _ _ _ _ => []

/-- The first invocation `doWork` makes in `pendingWorld`. -/
def pendingInvocation : Invocation JsValue where
  callback := JsValue.function 1
  key := "x"
  newValue := "1"
  mutexLocked := true
  asyncData := some { key := "x", value := "1" }

/-! ## Theorems -/

theorem unable_ne_argument_count (s : String) :
    "Unable to put value " ++ s ≠ "put must be called with a key and a value" := by
  intro h
  have h2 := congrArg String.data h
  simp at h2

/-- C1: `Region::Put(k, v)` with a value the serializer cannot represent throws
"Unable to put value " followed by the detail string of `v`; the region's `put` is not
called (only `getCache` and the serializer are) and no entry of any region changes. -/
theorem Put_unsupported_value (env : Env V C) (region : Region V) (k v : V) (w : World V C)
    (h : env.gemfireValueFromV8 v (env.getCache region.regionPtr) = none) :
    (Region.Put env region [k, v] w).2
        = Except.error ("Unable to put value " ++ env.toDetailString v) ∧
      (Region.Put env region [k, v] w).1.store = w.store ∧
      (Region.Put env region [k, v] w).1.calls
        = w.calls ++ [Call.getCache region.regionPtr,
            Call.gemfireValueFromV8 v (env.getCache region.regionPtr)] := by
  simp [Region.Put, argAt, h, World.record]

theorem Put_unsupported_value_witness :
    sampleEnv.gemfireValueFromV8 (JsValue.function 3) (sampleEnv.getCache sampleRegion.regionPtr)
        = none ∧
      (Region.Put sampleEnv sampleRegion [JsValue.string "k", JsValue.function 3] sampleWorld).2
        = Except.error ("Unable to put value " ++ sampleEnv.toDetailString (JsValue.function 3)) :=
  ⟨rfl, (Put_unsupported_value sampleEnv sampleRegion (JsValue.string "k") (JsValue.function 3)
    sampleWorld rfl).1⟩

/-- C2: `Region::Put` throws "put must be called with a key and a value" exactly when the
number of arguments is not 2, and when it throws that error the world is untouched: no
call to the serializer or to the region's `put` is logged and no entry changes. -/
theorem Put_argument_count (env : Env V C) (region : Region V) (args : List V) (w : World V C) :
    ((Region.Put env region args w).2
        = Except.error "put must be called with a key and a value" ↔ args.length ≠ 2) ∧
      ((Region.Put env region args w).2
        = Except.error "put must be called with a key and a value" →
          (Region.Put env region args w).1 = w) := by
  by_cases hlen : args.length = 2
  · have hne : (Region.Put env region args w).2
        ≠ Except.error "put must be called with a key and a value" := by
      simp only [Region.Put, hlen, ne_eq, not_true_eq_false, if_false]
      cases env.gemfireValueFromV8 (argAt env args 1) (env.getCache region.regionPtr) with
      | none =>
        intro h
        exact unable_ne_argument_count _ (Except.error.inj h)
      | some value => intro h; cases h
    exact ⟨⟨fun h => absurd h hne, fun h => absurd hlen h⟩, fun h => absurd h hne⟩
  · simp [Region.Put, hlen]

theorem Put_argument_count_witness :
    (Region.Put sampleEnv sampleRegion [JsValue.string "k"] sampleWorld).2
        = Except.error "put must be called with a key and a value" ∧
      (Region.Put sampleEnv sampleRegion [JsValue.string "k"] sampleWorld).1 = sampleWorld :=
  have h := Put_argument_count sampleEnv sampleRegion [JsValue.string "k"] sampleWorld
  ⟨h.1.2 (by decide), h.2 (h.1.2 (by decide))⟩

/-- C4: a `Region::Put(k, v)` whose value the serializer represents as `c` returns the
argument `v` itself, and on the way calls the region's `put` once, with the key of `k`
and with `c` (after `getCache` and the serializer, and nothing else). -/
theorem Put_returns_argument (env : Env V C) (region : Region V) (k v : V) (w : World V C)
    (c : C) (h : env.gemfireValueFromV8 v (env.getCache region.regionPtr) = some c) :
    (Region.Put env region [k, v] w).2 = Except.ok v ∧
      (Region.Put env region [k, v] w).1.calls
        = w.calls ++ [Call.getCache region.regionPtr,
            Call.gemfireValueFromV8 v (env.getCache region.regionPtr),
            Call.put region.regionPtr (env.utf8Value k) c] := by
  simp [Region.Put, argAt, h, World.record, World.regionPut]

theorem Put_returns_argument_witness :
    sampleEnv.gemfireValueFromV8 (JsValue.string "v") (sampleEnv.getCache sampleRegion.regionPtr)
        = some "v" ∧
      (Region.Put sampleEnv sampleRegion [JsValue.string "k", JsValue.string "v"] sampleWorld).2
        = Except.ok (JsValue.string "v") :=
  ⟨rfl, (Put_returns_argument sampleEnv sampleRegion (JsValue.string "k") (JsValue.string "v")
    sampleWorld "v" rfl).1⟩

/-- C8: `Region::Get(k)` for a key with no entry in the region returns the undefined value
and throws nothing. -/
theorem Get_absent_key (env : Env V C) (region : Region V) (k : V) (w : World V C)
    (h : w.store region.regionPtr (env.utf8Value k) = none) :
    (Region.Get env region [k] w).2 = Except.ok env.undefined := by
  simp [Region.Get, argAt, h, v8ValueFromGemfire]

theorem Get_absent_key_witness :
    sampleWorld.store sampleRegion.regionPtr (sampleEnv.utf8Value (JsValue.string "k")) = none ∧
      (Region.Get sampleEnv sampleRegion [JsValue.string "k"] sampleWorld).2
        = Except.ok JsValue.undefined :=
  ⟨rfl, Get_absent_key sampleEnv sampleRegion (JsValue.string "k") sampleWorld rfl⟩

/-- C9: for a cache handle that is an object (so `ToObject` returns it) and a region name,
`Region::GetRegion` returns undefined exactly when the cache's `getRegion(name)` is null,
and otherwise returns a wrapper of a `Region` holding that cache handle and exactly the
region handle `getRegion(name)` returned. -/
theorem GetRegion_result (env : Env V C) (cacheHandle name : V) (w : World V C)
    (hobj : env.toObject cacheHandle = cacheHandle) :
    ((Region.GetRegion env [cacheHandle, name] w).2 = RegionHandle.undefined ↔
        w.regions (env.unwrapCache cacheHandle) (env.asciiString name) = none) ∧
      (∀ regionPtr : RegionPtr,
        w.regions (env.unwrapCache cacheHandle) (env.asciiString name) = some regionPtr →
          (Region.GetRegion env [cacheHandle, name] w).2
            = RegionHandle.wrapping { cacheHandle := cacheHandle, regionPtr := regionPtr }) := by
  simp only [Region.GetRegion, argAt, List.getD_cons_zero, List.getD_cons_succ, hobj]
  cases hr : w.regions (env.unwrapCache cacheHandle) (env.asciiString name) with
  | none => simp
  | some r => simp

theorem GetRegion_result_witness :
    sampleEnv.toObject (JsValue.object 0) = JsValue.object 0 ∧
      (Region.GetRegion sampleEnv [JsValue.object 0, JsValue.string "r"] sampleWorld).2
        = RegionHandle.wrapping { cacheHandle := JsValue.object 0, regionPtr := 7 } ∧
      (Region.GetRegion sampleEnv [JsValue.object 0, JsValue.string "s"] sampleWorld).2
        = RegionHandle.undefined :=
  ⟨rfl,
    (GetRegion_result sampleEnv (JsValue.object 0) (JsValue.string "r") sampleWorld rfl).2 7
      (by decide),
    (GetRegion_result sampleEnv (JsValue.object 0) (JsValue.string "s") sampleWorld rfl).1.2
      (by decide)⟩

/-! ### Registration and dispatch -/

theorem setCacheListener_putCallbacks (env : Env V C) (regionPtr : RegionPtr) (w : World V C) :
    (setCacheListener env regionPtr w).putCallbacks = w.putCallbacks := by
  unfold setCacheListener
  split <;> rfl

theorem setCacheListener_store (env : Env V C) (regionPtr : RegionPtr) (w : World V C) :
    (setCacheListener env regionPtr w).store = w.store := by
  unfold setCacheListener
  split <;> rfl

theorem setCacheListener_of_set (env : Env V C) (regionPtr : RegionPtr) (w : World V C)
    (h : w.cacheListenerSet = true) : setCacheListener env regionPtr w = w := by
  simp [setCacheListener, h]

theorem OnPut_of_set (env : Env V C) (region : Region V) (args : List V) (w : World V C)
    (h : w.cacheListenerSet = true) :
    (Region.OnPut env region args w).calls = w.calls ∧
      (Region.OnPut env region args w).cacheListenerSet = true := by
  simp [Region.OnPut, setCacheListener_of_set env region.regionPtr w h, h]

theorem runOnPuts_of_set (env : Env V C) (registrations : List (Region V × List V)) :
    ∀ w : World V C, w.cacheListenerSet = true →
      (runOnPuts env registrations w).calls = w.calls := by
  induction registrations with
  | nil => intro w _; rfl
  | cons r rest ih =>
    intro w h
    have h1 := OnPut_of_set env r.1 r.2 w h
    have h2 := ih (Region.OnPut env r.1 r.2 w) h1.2
    simp only [runOnPuts, List.foldl_cons] at h2 ⊢
    rw [h2, h1.1]

theorem runOnPuts_putCallbacks (env : Env V C) (registrations : List (Region V × List V)) :
    ∀ w : World V C, (runOnPuts env registrations w).putCallbacks
      = w.putCallbacks ++ registrations.map (fun r => argAt env r.2 0) := by
  induction registrations with
  | nil => intro w; simp [runOnPuts]
  | cons r rest ih =>
    intro w
    have h2 := ih (Region.OnPut env r.1 r.2 w)
    simp only [runOnPuts, List.foldl_cons] at h2 ⊢
    rw [h2]
    simp [Region.OnPut, setCacheListener_putCallbacks]

/-- C5: starting with `cacheListenerSet = false`, in any sequence of one or more
`Region::OnPut` calls (on any wrappers) `setCacheListener` is called on a native region
once, during the first call and on that call's region; the later calls add nothing to
the log of native calls. -/
theorem OnPut_installs_listener_once (env : Env V C) (first : Region V × List V)
    (rest : List (Region V × List V)) (w : World V C) (h : w.cacheListenerSet = false) :
    (Region.OnPut env first.1 first.2 w).calls
        = w.calls ++ [Call.setCacheListener first.1.regionPtr] ∧
      (runOnPuts env (first :: rest) w).calls
        = w.calls ++ [Call.setCacheListener first.1.regionPtr] := by
  have h1 : (Region.OnPut env first.1 first.2 w).calls
      = w.calls ++ [Call.setCacheListener first.1.regionPtr] := by
    simp [Region.OnPut, setCacheListener, h, World.record]
  have h2 : (Region.OnPut env first.1 first.2 w).cacheListenerSet = true := by
    simp [Region.OnPut, setCacheListener, h, World.record]
  refine ⟨h1, ?_⟩
  have h3 := runOnPuts_of_set env rest (Region.OnPut env first.1 first.2 w) h2
  simp only [runOnPuts, List.foldl_cons] at h3 ⊢
  rw [h3, h1]

theorem OnPut_installs_listener_once_witness :
    (World.start : World JsValue String).cacheListenerSet = false ∧
      (runOnPuts sampleEnv
          [(sampleRegion, [JsValue.function 1]),
            ({ cacheHandle := JsValue.object 0, regionPtr := 8 }, [JsValue.function 2]),
            (sampleRegion, [JsValue.function 1])] World.start).calls
        = [Call.setCacheListener 7] :=
  ⟨rfl, (OnPut_installs_listener_once sampleEnv (sampleRegion, [JsValue.function 1])
    [({ cacheHandle := JsValue.object 0, regionPtr := 8 }, [JsValue.function 2]),
      (sampleRegion, [JsValue.function 1])] World.start rfl).2⟩

/-! ### Dispatch -/

theorem run_frame (env : Env V C) (op : HostCall V) (w : World V C)
    (hset : w.cacheListenerSet = true) :
    (op.run env w).cacheListenerSet = true ∧
      (op.run env w).eventMutexLocked = w.eventMutexLocked ∧
      (op.run env w).asyncData = w.asyncData ∧
      (op.run env w).invocations = w.invocations ∧
      ∃ later : List V, (op.run env w).putCallbacks = w.putCallbacks ++ later := by
  cases op with
  | getRegion args =>
    simp only [HostCall.run, Region.GetRegion]
    split <;> exact ⟨hset, rfl, rfl, rfl, [], by simp [World.record]⟩
  | put region args =>
    simp only [HostCall.run, Region.Put]
    split
    · exact ⟨hset, rfl, rfl, rfl, [], by simp⟩
    · split <;> exact ⟨hset, rfl, rfl, rfl, [], by simp [World.record, World.regionPut]⟩
  | get region args => exact ⟨hset, rfl, rfl, rfl, [], by simp [HostCall.run, Region.Get, World.record]⟩
  | clear region => exact ⟨hset, rfl, rfl, rfl, [], by simp [HostCall.run, Region.Clear, World.regionClear]⟩
  | registerAllKeys region =>
    exact ⟨hset, rfl, rfl, rfl, [], by simp [HostCall.run, Region.RegisterAllKeys, World.record]⟩
  | unregisterAllKeys region =>
    exact ⟨hset, rfl, rfl, rfl, [], by simp [HostCall.run, Region.UnregisterAllKeys, World.record]⟩
  | onPut region args =>
    have hrun : (HostCall.onPut region args).run env w
        = { w with putCallbacks := w.putCallbacks ++ [argAt env args 0] } := by
      show Region.OnPut env region args w = _
      simp only [Region.OnPut, setCacheListener_of_set env region.regionPtr w hset]
    rw [hrun]
    exact ⟨hset, rfl, rfl, rfl, [argAt env args 0], rfl⟩

theorem runCalls_frame (env : Env V C) (ops : List (HostCall V)) :
    ∀ w : World V C, w.cacheListenerSet = true →
      (runCalls env ops w).cacheListenerSet = true ∧
        (runCalls env ops w).eventMutexLocked = w.eventMutexLocked ∧
        (runCalls env ops w).asyncData = w.asyncData ∧
        (runCalls env ops w).invocations = w.invocations ∧
        ∃ later : List V, (runCalls env ops w).putCallbacks = w.putCallbacks ++ later := by
  induction ops with
  | nil => intro w hset; exact ⟨hset, rfl, rfl, rfl, [], by simp [runCalls]⟩
  | cons op rest ih =>
    intro w hset
    obtain ⟨h1, h2, h3, h4, l1, h5⟩ := run_frame env op w hset
    obtain ⟨k1, k2, k3, k4, l2, k5⟩ := ih (op.run env w) h1
    simp only [runCalls, List.foldl_cons] at k1 k2 k3 k4 k5 ⊢
    exact ⟨k1, k2.trans h2, k3.trans h3, k4.trans h4, l1 ++ l2, by rw [k5, h5, List.append_assoc]⟩

theorem run_frame_of_not_registers (env : Env V C) (op : HostCall V) (w : World V C)
    (hreg : op.registers = false) :
    (op.run env w).eventMutexLocked = w.eventMutexLocked ∧
      (op.run env w).asyncData = w.asyncData ∧
      (op.run env w).invocations = w.invocations ∧
      (op.run env w).putCallbacks = w.putCallbacks := by
  cases op with
  | getRegion args =>
    simp only [HostCall.run, Region.GetRegion]
    split <;> exact ⟨rfl, rfl, rfl, rfl⟩
  | put region args =>
    simp only [HostCall.run, Region.Put]
    split
    · exact ⟨rfl, rfl, rfl, rfl⟩
    · split <;> exact ⟨rfl, rfl, rfl, rfl⟩
  | get region args => exact ⟨rfl, rfl, rfl, rfl⟩
  | clear region => exact ⟨rfl, rfl, rfl, rfl⟩
  | registerAllKeys region => exact ⟨rfl, rfl, rfl, rfl⟩
  | unregisterAllKeys region => exact ⟨rfl, rfl, rfl, rfl⟩
  | onPut region args => simp [HostCall.registers] at hreg

theorem runCalls_frame_of_not_registers (env : Env V C) (ops : List (HostCall V)) :
    ∀ w : World V C, (∀ op ∈ ops, op.registers = false) →
      (runCalls env ops w).eventMutexLocked = w.eventMutexLocked ∧
        (runCalls env ops w).asyncData = w.asyncData ∧
        (runCalls env ops w).invocations = w.invocations ∧
        (runCalls env ops w).putCallbacks = w.putCallbacks := by
  induction ops with
  | nil => intro w _; exact ⟨rfl, rfl, rfl, rfl⟩
  | cons op rest ih =>
    intro w h
    obtain ⟨h2, h3, h4, h5⟩ :=
      run_frame_of_not_registers env op w (h op (List.mem_cons_self _ _))
    obtain ⟨k2, k3, k4, k5⟩ := ih (op.run env w) (fun o ho => h o (List.mem_cons_of_mem _ ho))
    simp only [runCalls, List.foldl_cons] at k2 k3 k4 k5 ⊢
    exact ⟨k2.trans h2, k3.trans h3, k4.trans h4, k5.trans h5⟩

theorem NanMakeCallback_frame (env : Env V C) (host : HostCode V C) (putCallback : V)
    (key newValue : String) (w : World V C) (hset : w.cacheListenerSet = true) :
    (NanMakeCallback env host putCallback key newValue w).cacheListenerSet = true ∧
      (NanMakeCallback env host putCallback key newValue w).eventMutexLocked
        = w.eventMutexLocked ∧
      (NanMakeCallback env host putCallback key newValue w).asyncData = w.asyncData ∧
      (NanMakeCallback env host putCallback key newValue w).invocations
        = w.invocations ++ [w.invocation putCallback key newValue] ∧
      ∃ later : List V,
        (NanMakeCallback env host putCallback key newValue w).putCallbacks
          = w.putCallbacks ++ later := by
  unfold NanMakeCallback
  exact runCalls_frame env _ _ hset

theorem NanMakeCallback_frame_of_not_registers (env : Env V C) (host : HostCode V C)
    (putCallback : V) (key newValue : String) (w : World V C)
    (hreg : ∀ w2 : World V C, ∀ op ∈ host putCallback key newValue w2, op.registers = false) :
    (NanMakeCallback env host putCallback key newValue w).eventMutexLocked
        = w.eventMutexLocked ∧
      (NanMakeCallback env host putCallback key newValue w).asyncData = w.asyncData ∧
      (NanMakeCallback env host putCallback key newValue w).invocations
        = w.invocations ++ [w.invocation putCallback key newValue] ∧
      (NanMakeCallback env host putCallback key newValue w).putCallbacks = w.putCallbacks := by
  unfold NanMakeCallback
  exact runCalls_frame_of_not_registers env _ _ (hreg _)

theorem drop_append_eq_cons (xs later : List V) (i : Nat) (h : i < xs.length) :
    (xs ++ later).drop i = xs.get ⟨i, h⟩ :: (xs ++ later).drop (i + 1) := by
  have h2 : i < (xs ++ later).length := by
    rw [List.length_append]
    omega
  rw [List.drop_eq_getElem_cons h2]
  congr 1
  exact List.getElem_append_left h

theorem callPutCallbacksLoop_spec (env : Env V C) (host : HostCode V C)
    (key newValue : String) :
    ∀ (fuel i : Nat) (w : World V C), w.cacheListenerSet = true → i ≤ w.putCallbacks.length →
      Dispatched key newValue fuel i w (callPutCallbacksLoop env host key newValue fuel i w) := by
  intro fuel
  induction fuel with
  | zero =>
    intro i w _ hi
    unfold callPutCallbacksLoop
    split
    · exact ⟨[], [], rfl, rfl, by simp, by simp, by simp, by simp, by simp⟩
    · next hlt =>
      refine ⟨[], [], rfl, rfl, by simp, by simp, by simp, ?_, by simp⟩
      intro _
      simp only [List.append_nil, List.map_nil]
      exact (List.drop_of_length_le (Nat.not_lt.mp hlt)).symm
  | succ fuel ih =>
    intro i w hset hi
    unfold callPutCallbacksLoop
    split
    · next hlt =>
      obtain ⟨h1, h2, h3, h4, l1, h5⟩ :=
        NanMakeCallback_frame env host (w.putCallbacks.get ⟨i, hlt⟩) key newValue w hset
      have hi2 : i + 1 ≤
          (NanMakeCallback env host (w.putCallbacks.get ⟨i, hlt⟩) key newValue w).putCallbacks.length := by
        rw [h5, List.length_append]
        omega
      obtain ⟨invoked, l2, k2, k3, k5, k4, kall, kret, kfuel⟩ := ih (i + 1) _ h1 hi2
      refine ⟨w.invocation (w.putCallbacks.get ⟨i, hlt⟩) key newValue :: invoked, l1 ++ l2,
        k2.trans h2, k3.trans h3, ?_, ?_, ?_, ?_, ?_⟩
      · rw [k5, h5, List.append_assoc]
      · rw [k4, h4, List.append_assoc, List.singleton_append]
      · intro inv hinv
        rcases List.mem_cons.mp hinv with rfl | hmem
        · exact ⟨rfl, rfl, rfl, rfl⟩
        · obtain ⟨a, b, c, d⟩ := kall inv hmem
          exact ⟨a, b, c.trans h2, d.trans h3⟩
      · intro hr
        have hk := kret hr
        rw [h5, List.append_assoc] at hk
        rw [List.map_cons, hk, drop_append_eq_cons w.putCallbacks (l1 ++ l2) i hlt]
        rfl
      · intro hr
        rw [List.length_cons, kfuel hr]
    · next hlt =>
      refine ⟨[], [], rfl, rfl, by simp, by simp, by simp, ?_, by simp⟩
      intro _
      simp only [List.append_nil, List.map_nil]
      exact (List.drop_of_length_le (Nat.not_lt.mp hlt)).symm

theorem callPutCallbacksLoop_of_not_registers (env : Env V C) (host : HostCode V C)
    (key newValue : String) :
    ∀ (fuel i : Nat) (w : World V C),
      (∀ c ∈ w.putCallbacks, ∀ w2 : World V C, ∀ op ∈ host c key newValue w2,
        op.registers = false) →
      w.putCallbacks.length ≤ i + fuel →
      (callPutCallbacksLoop env host key newValue fuel i w).returned = true ∧
        (callPutCallbacksLoop env host key newValue fuel i w).world.putCallbacks
          = w.putCallbacks ∧
        (callPutCallbacksLoop env host key newValue fuel i w).world.invocations
          = w.invocations ++ (w.putCallbacks.drop i).map (fun c => w.invocation c key newValue) := by
  intro fuel
  induction fuel with
  | zero =>
    intro i w _ hlen
    have hle : w.putCallbacks.length ≤ i := by omega
    unfold callPutCallbacksLoop
    simp [Nat.not_lt.mpr hle, List.drop_of_length_le hle]
  | succ fuel ih =>
    intro i w hreg hlen
    unfold callPutCallbacksLoop
    split
    · next hlt =>
      obtain ⟨h2, h3, h4, h5⟩ := NanMakeCallback_frame_of_not_registers env host
        (w.putCallbacks.get ⟨i, hlt⟩) key newValue w
        (hreg _ (List.get_mem _ _ _))
      have hreg2 : ∀ c ∈ (NanMakeCallback env host (w.putCallbacks.get ⟨i, hlt⟩) key newValue
          w).putCallbacks, ∀ w2 : World V C, ∀ op ∈ host c key newValue w2,
            op.registers = false := by
        rw [h5]
        exact hreg
      obtain ⟨kret, k5, k4⟩ := ih (i + 1) _ hreg2 (by rw [h5]; omega)
      refine ⟨kret, k5.trans h5, ?_⟩
      rw [k4, h4, h5, List.append_assoc, List.singleton_append,
        List.drop_eq_getElem_cons hlt, List.map_cons]
      simp only [World.invocation, h2, h3]
      rfl
    · next hlt =>
      simp [List.drop_of_length_le (Nat.not_lt.mp hlt)]

theorem doWork_spec (env : Env V C) (host : HostCode V C) (fuel : Nat) (w : World V C)
    (incomingEvent : Event) (h : w.asyncData = some incomingEvent)
    (hset : w.cacheListenerSet = true) :
    ∃ (run : Run V C) (invoked : List (Invocation V)) (later : List V),
      doWork env host fuel w = some run ∧
      run.world.asyncData = some incomingEvent ∧
      run.world.putCallbacks = w.putCallbacks ++ later ∧
      run.world.invocations = w.invocations ++ invoked ∧
      (∀ inv ∈ invoked, inv.key = incomingEvent.key ∧ inv.newValue = incomingEvent.value ∧
        inv.mutexLocked = true ∧ inv.asyncData = some incomingEvent) ∧
      (run.returned = true →
        run.world.eventMutexLocked = false ∧
          invoked.map (fun inv => inv.callback) = w.putCallbacks ++ later) ∧
      (run.returned = false → run.world.eventMutexLocked = true ∧ invoked.length = fuel) := by
  cases w with
  | mk regions store calls cacheListenerSet eventMutexLocked putCallbacks asyncData invocations =>
  simp only at h hset
  subst h
  obtain ⟨invoked, later, k2, k3, k5, k4, kall, kret, kfuel⟩ :=
    callPutCallbacksLoop_spec env host incomingEvent.key incomingEvent.value fuel 0
      { regions := regions, store := store, calls := calls, cacheListenerSet := cacheListenerSet,
        eventMutexLocked := true, putCallbacks := putCallbacks,
        asyncData := some incomingEvent, invocations := invocations }
      hset (Nat.zero_le _)
  simp only [List.drop_zero] at kret
  obtain ⟨loop, hloop⟩ : ∃ loop : Run V C, callPutCallbacksLoop env host incomingEvent.key
      incomingEvent.value fuel 0
      { regions := regions, store := store, calls := calls, cacheListenerSet := cacheListenerSet,
        eventMutexLocked := true, putCallbacks := putCallbacks,
        asyncData := some incomingEvent, invocations := invocations } = loop := ⟨_, rfl⟩
  rw [hloop] at k2 k3 k5 k4 kret kfuel
  cases hr : loop.returned with
  | true =>
    refine ⟨{ world := { loop.world with eventMutexLocked := false }, returned := true },
      invoked, later, ?_, k3, k5, k4, kall, fun _ => ⟨rfl, kret hr⟩, ?_⟩
    · simp only [doWork, callPutCallbacks, hloop, hr, if_true]
    · intro hf
      cases hf
  | false =>
    refine ⟨loop, invoked, later, ?_, k3, k5, k4, kall, ?_, fun _ => ⟨k2, kfuel hr⟩⟩
    · simp only [doWork, callPutCallbacks, hloop, hr]
      rfl
    · intro hf
      rw [hr] at hf
      cases hf

theorem runOnPuts_Init_putCallbacks (env : Env V C) (registrations : List (Region V × List V))
    (w : World V C) :
    (runOnPuts env registrations (Region.Init w)).putCallbacks
      = registrations.map (fun r => argAt env r.2 0) := by
  rw [runOnPuts_putCallbacks]
  simp [Region.Init]

/-- C6, as the code has it: after `Region::Init` and any sequence of `Region::OnPut`
registrations (duplicates allowed) of callbacks whose bodies make no `onPut` call,
`callPutCallbacks` on an event with key `k` and value `v` returns (within as many
iterations as there are registrations) having invoked exactly the registered callbacks,
once per registration, in registration order, each with the arguments `(k, v)`. -/
theorem callPutCallbacks_registration_order (env : Env V C) (host : HostCode V C)
    (registrations : List (Region V × List V)) (incomingEvent : Event) (fuel : Nat)
    (w : World V C)
    (hreg : ∀ r ∈ registrations, ∀ w2 : World V C,
      ∀ op ∈ host (argAt env r.2 0) incomingEvent.key incomingEvent.value w2,
        op.registers = false)
    (hfuel : registrations.length ≤ fuel) :
    (callPutCallbacks env host fuel incomingEvent
        (runOnPuts env registrations (Region.Init w))).returned = true ∧
      ∃ invoked : List (Invocation V),
        (callPutCallbacks env host fuel incomingEvent
            (runOnPuts env registrations (Region.Init w))).world.invocations
          = (runOnPuts env registrations (Region.Init w)).invocations ++ invoked ∧
        invoked.map (fun inv => (inv.callback, inv.key, inv.newValue))
          = registrations.map
              (fun r => (argAt env r.2 0, incomingEvent.key, incomingEvent.value)) := by
  have hpc := runOnPuts_Init_putCallbacks env registrations w
  have hreg2 : ∀ c ∈ (runOnPuts env registrations (Region.Init w)).putCallbacks,
      ∀ w2 : World V C, ∀ op ∈ host c incomingEvent.key incomingEvent.value w2,
        op.registers = false := by
    intro c hc
    rw [hpc, List.mem_map] at hc
    obtain ⟨r, hr, rfl⟩ := hc
    exact hreg r hr
  obtain ⟨kret, _, k4⟩ := callPutCallbacksLoop_of_not_registers env host incomingEvent.key
    incomingEvent.value fuel 0 (runOnPuts env registrations (Region.Init w)) hreg2
    (by rw [hpc, List.length_map]; omega)
  refine ⟨kret, _, k4, ?_⟩
  rw [List.drop_zero, hpc]
  simp [World.invocation, Function.comp_def]

theorem callPutCallbacks_registration_order_witness :
    (∀ r ∈ [(sampleRegion, [JsValue.function 2]), (sampleRegion, [JsValue.function 3]),
        (sampleRegion, [JsValue.function 2])], ∀ w2 : World JsValue String,
      ∀ op ∈ sampleHost (argAt sampleEnv r.2 0) "x" "1" w2, op.registers = false) ∧
      (callPutCallbacks sampleEnv sampleHost 3 { key := "x", value := "1" }
        (runOnPuts sampleEnv
          [(sampleRegion, [JsValue.function 2]), (sampleRegion, [JsValue.function 3]),
            (sampleRegion, [JsValue.function 2])] (Region.Init World.start))).returned = true :=
  have hreg : ∀ r ∈ [(sampleRegion, [JsValue.function 2]), (sampleRegion, [JsValue.function 3]),
        (sampleRegion, [JsValue.function 2])], ∀ w2 : World JsValue String,
      ∀ op ∈ sampleHost (argAt sampleEnv r.2 0) "x" "1" w2, op.registers = false := by
    intro r hr w2 op hop
    simp only [List.mem_cons, List.mem_singleton, List.not_mem_nil, or_false] at hr
    rcases hr with rfl | rfl | rfl <;> simp [sampleHost, argAt] at hop
  ⟨hreg, (callPutCallbacks_registration_order sampleEnv sampleHost _ { key := "x", value := "1" }
    3 World.start hreg (by decide)).1⟩

/-- C6 fails as stated: with the one registration `onPut(function 1)`, where function 1
itself calls `onPut(function 2)`, `callPutCallbacks` on the event ("x", "1") returns having
invoked function 1 and then function 2, not exactly the registered function 1. -/
theorem callPutCallbacks_exactly_registered_counterexample :
    (callPutCallbacks sampleEnv sampleHost 2 { key := "x", value := "1" }
        (runOnPuts sampleEnv [(sampleRegion, [JsValue.function 1])]
          (Region.Init World.start))).returned = true ∧
      (callPutCallbacks sampleEnv sampleHost 2 { key := "x", value := "1" }
        (runOnPuts sampleEnv [(sampleRegion, [JsValue.function 1])]
          (Region.Init World.start))).world.invocations.map
            (fun inv => (inv.callback, inv.key, inv.newValue))
        = [(JsValue.function 1, "x", "1"), (JsValue.function 2, "x", "1")] := by
  decide

theorem doWork_returns_of_not_registers (env : Env V C) (host : HostCode V C) (fuel : Nat)
    (w : World V C) (incomingEvent : Event) (run : Run V C)
    (h : w.asyncData = some incomingEvent) (hrun : doWork env host fuel w = some run)
    (hreg : ∀ c ∈ w.putCallbacks, ∀ w2 : World V C,
      ∀ op ∈ host c incomingEvent.key incomingEvent.value w2, op.registers = false)
    (hfuel : w.putCallbacks.length ≤ fuel) : run.returned = true := by
  cases w with
  | mk regions store calls cacheListenerSet eventMutexLocked putCallbacks asyncData invocations =>
  simp only at h hreg hfuel
  subst h
  obtain ⟨kret, _, _⟩ := callPutCallbacksLoop_of_not_registers env host incomingEvent.key
    incomingEvent.value fuel 0
    { regions := regions, store := store, calls := calls, cacheListenerSet := cacheListenerSet,
      eventMutexLocked := true, putCallbacks := putCallbacks,
      asyncData := some incomingEvent, invocations := invocations }
    hreg (by simpa using hfuel)
  simp only [doWork, callPutCallbacks, kret, if_true, Option.some.injEq] at hrun
  rw [← hrun]

/-- C7, as the code has it: in every run of `doWork` (listener installed, a payload in the
slot), at whatever point of the run, every callback invoked so far was invoked while
`eventMutex` was held; while the dispatch has not returned the mutex is still held, and it
is released only once `callPutCallbacks` has returned, having called every element of the
array, those registered during the dispatch included.  With callbacks that register
nothing the run returns within as many iterations as there are callbacks. -/
theorem doWork_invokes_under_lock (env : Env V C) (host : HostCode V C) (fuel : Nat)
    (w : World V C) (incomingEvent : Event) (h : w.asyncData = some incomingEvent)
    (hset : w.cacheListenerSet = true) :
    ∃ (run : Run V C) (invoked : List (Invocation V)) (later : List V),
      doWork env host fuel w = some run ∧
      run.world.putCallbacks = w.putCallbacks ++ later ∧
      run.world.invocations = w.invocations ++ invoked ∧
      (∀ inv ∈ invoked, inv.mutexLocked = true) ∧
      (run.returned = true →
        run.world.eventMutexLocked = false ∧
          invoked.map (fun inv => inv.callback) = w.putCallbacks ++ later) ∧
      (run.returned = false → run.world.eventMutexLocked = true ∧ invoked.length = fuel) ∧
      ((∀ c ∈ w.putCallbacks, ∀ w2 : World V C,
          ∀ op ∈ host c incomingEvent.key incomingEvent.value w2, op.registers = false) →
        w.putCallbacks.length ≤ fuel → run.returned = true) := by
  obtain ⟨run, invoked, later, hrun, _, k5, k4, kall, kret, kfuel⟩ :=
    doWork_spec env host fuel w incomingEvent h hset
  exact ⟨run, invoked, later, hrun, k5, k4, fun inv hinv => (kall inv hinv).2.2.1, kret, kfuel,
    fun hreg hfuel =>
      doWork_returns_of_not_registers env host fuel w incomingEvent run h hrun hreg hfuel⟩

theorem doWork_invokes_under_lock_witness :
    pendingWorld.asyncData = some { key := "x", value := "1" } ∧
      pendingWorld.cacheListenerSet = true ∧
      ∃ (run : Run JsValue String) (invoked : List (Invocation JsValue)) (later : List JsValue),
        doWork sampleEnv sampleHost 2 pendingWorld = some run ∧
        run.world.putCallbacks = pendingWorld.putCallbacks ++ later ∧
        run.world.invocations = pendingWorld.invocations ++ invoked ∧
        (∀ inv ∈ invoked, inv.mutexLocked = true) ∧
        (run.returned = true →
          run.world.eventMutexLocked = false ∧
            invoked.map (fun inv => inv.callback) = pendingWorld.putCallbacks ++ later) ∧
        (run.returned = false → run.world.eventMutexLocked = true ∧ invoked.length = 2) ∧
        ((∀ c ∈ pendingWorld.putCallbacks, ∀ w2 : World JsValue String,
            ∀ op ∈ sampleHost c "x" "1" w2, op.registers = false) →
          pendingWorld.putCallbacks.length ≤ 2 → run.returned = true) :=
  ⟨rfl, rfl,
    doWork_invokes_under_lock sampleEnv sampleHost 2 pendingWorld { key := "x", value := "1" }
      rfl rfl⟩

/-- C7 fails as stated: with one registered callback (one that calls nothing) and the
payload ("x", "1") pending, `doWork` returns having invoked the callback while
`eventMutex` was locked. -/
theorem doWork_lock_released_before_dispatch_counterexample :
    ∃ run : Run JsValue String, doWork sampleEnv inertHost 1 pendingWorld = some run ∧
      run.returned = true ∧
      ∃ inv ∈ run.world.invocations, inv.callback = JsValue.function 1 ∧
        inv.mutexLocked = true := by
  refine ⟨_, rfl, rfl, pendingInvocation, ?_, rfl, rfl⟩
  decide

/-- C10, as the code has it: `doWork` reads the payload through `async->data` and leaves it
there: in every run (listener installed, a payload in the slot), at whatever point of the
run, the slot holds the same payload as before, as it did when each callback was invoked
(every element of the array on return, those registered during the dispatch included),
so also after `doWork` has returned.  With callbacks that register nothing the run returns
within as many iterations as there are callbacks. -/
theorem doWork_keeps_payload_in_slot (env : Env V C) (host : HostCode V C) (fuel : Nat)
    (w : World V C) (incomingEvent : Event) (h : w.asyncData = some incomingEvent)
    (hset : w.cacheListenerSet = true) :
    ∃ (run : Run V C) (invoked : List (Invocation V)) (later : List V),
      doWork env host fuel w = some run ∧
      run.world.asyncData = some incomingEvent ∧
      run.world.putCallbacks = w.putCallbacks ++ later ∧
      run.world.invocations = w.invocations ++ invoked ∧
      (∀ inv ∈ invoked, inv.asyncData = some incomingEvent) ∧
      (run.returned = true →
        invoked.map (fun inv => inv.callback) = w.putCallbacks ++ later) ∧
      (run.returned = false → invoked.length = fuel) ∧
      ((∀ c ∈ w.putCallbacks, ∀ w2 : World V C,
          ∀ op ∈ host c incomingEvent.key incomingEvent.value w2, op.registers = false) →
        w.putCallbacks.length ≤ fuel → run.returned = true) := by
  obtain ⟨run, invoked, later, hrun, k3, k5, k4, kall, kret, kfuel⟩ :=
    doWork_spec env host fuel w incomingEvent h hset
  exact ⟨run, invoked, later, hrun, k3, k5, k4, fun inv hinv => (kall inv hinv).2.2.2,
    fun hr => (kret hr).2, fun hr => (kfuel hr).2,
    fun hreg hfuel =>
      doWork_returns_of_not_registers env host fuel w incomingEvent run h hrun hreg hfuel⟩

theorem doWork_keeps_payload_in_slot_witness :
    pendingWorld.asyncData = some { key := "x", value := "1" } ∧
      pendingWorld.cacheListenerSet = true ∧
      ∃ (run : Run JsValue String) (invoked : List (Invocation JsValue)) (later : List JsValue),
        doWork sampleEnv sampleHost 2 pendingWorld = some run ∧
        run.world.asyncData = some { key := "x", value := "1" } ∧
        run.world.putCallbacks = pendingWorld.putCallbacks ++ later ∧
        run.world.invocations = pendingWorld.invocations ++ invoked ∧
        (∀ inv ∈ invoked, inv.asyncData = some { key := "x", value := "1" }) ∧
        (run.returned = true →
          invoked.map (fun inv => inv.callback) = pendingWorld.putCallbacks ++ later) ∧
        (run.returned = false → invoked.length = 2) ∧
        ((∀ c ∈ pendingWorld.putCallbacks, ∀ w2 : World JsValue String,
            ∀ op ∈ sampleHost c "x" "1" w2, op.registers = false) →
          pendingWorld.putCallbacks.length ≤ 2 → run.returned = true) :=
  ⟨rfl, rfl,
    doWork_keeps_payload_in_slot sampleEnv sampleHost 2 pendingWorld { key := "x", value := "1" }
      rfl rfl⟩

/-- C10 fails as stated: with one registered callback (one that calls nothing) and the
payload ("x", "1") pending, the slot still holds that payload when the callback is invoked
and after `doWork` has returned. -/
theorem doWork_takes_payload_counterexample :
    ∃ run : Run JsValue String, doWork sampleEnv inertHost 1 pendingWorld = some run ∧
      run.returned = true ∧
      run.world.asyncData = some { key := "x", value := "1" } ∧
      ∃ inv ∈ run.world.invocations, inv.callback = JsValue.function 1 ∧
        inv.asyncData = some { key := "x", value := "1" } := by
  refine ⟨_, rfl, rfl, rfl, pendingInvocation, ?_, rfl, rfl⟩
  decide

/-! ### Round trip -/

theorem run_store_of_not_writesTo (env : Env V C) (regionPtr : RegionPtr) (key : String)
    (op : HostCall V) (w : World V C) (h : op.writesTo env regionPtr key = false) :
    (op.run env w).store regionPtr key = w.store regionPtr key := by
  cases op with
  | getRegion args =>
    simp only [HostCall.run, Region.GetRegion]
    split <;> rfl
  | put region args =>
    simp only [HostCall.run, Region.Put]
    by_cases hlen : args.length = 2
    · simp only [hlen, ne_eq, not_true_eq_false, if_false]
      cases hs : env.gemfireValueFromV8 (argAt env args 1) (env.getCache region.regionPtr) with
      | none => rfl
      | some value =>
        have hne : ¬ (regionPtr = region.regionPtr ∧ key = env.utf8Value (argAt env args 0)) := by
          rintro ⟨h1, h2⟩
          simp [HostCall.writesTo, hlen, hs, h1, h2] at h
        simp [World.regionPut, World.record, hne]
    · simp [hlen]
  | get region args => rfl
  | clear region =>
    have hne : ¬ regionPtr = region.regionPtr := by
      intro h1
      simp [HostCall.writesTo, h1] at h
    simp [HostCall.run, Region.Clear, World.regionClear, hne]
  | registerAllKeys region => rfl
  | unregisterAllKeys region => rfl
  | onPut region args =>
    simp [HostCall.run, Region.OnPut, setCacheListener_store]

theorem runCalls_store_of_not_writesTo (env : Env V C) (regionPtr : RegionPtr) (key : String)
    (ops : List (HostCall V)) :
    ∀ w : World V C, (∀ op ∈ ops, op.writesTo env regionPtr key = false) →
      (runCalls env ops w).store regionPtr key = w.store regionPtr key := by
  induction ops with
  | nil => intro w _; rfl
  | cons op rest ih =>
    intro w h
    have h1 := run_store_of_not_writesTo env regionPtr key op w (h op (List.mem_cons_self _ _))
    have h2 := ih (op.run env w) (fun o ho => h o (List.mem_cons_of_mem _ ho))
    simp only [runCalls, List.foldl_cons] at h2 ⊢
    rw [h2, h1]

/-- C3: when the serializer represents `v` as `c` and the deserializer turns `c` back into
`v`, `Region::Put(k, v)` succeeds and a `Region::Get(k)` on the same region, after any
host calls none of which writes the entry of `k` in that region, returns `v`. -/
theorem Get_after_Put (env : Env V C) (region : Region V) (k v : V) (c : C)
    (ops : List (HostCall V)) (w : World V C)
    (hser : env.gemfireValueFromV8 v (env.getCache region.regionPtr) = some c)
    (hinv : v8ValueFromGemfire env (some c) = v)
    (hops : ∀ op ∈ ops, op.writesTo env region.regionPtr (env.utf8Value k) = false) :
    (Region.Put env region [k, v] w).2 = Except.ok v ∧
      (Region.Get env region [k] (runCalls env ops (Region.Put env region [k, v] w).1)).2
        = Except.ok v := by
  have hput : (Region.Put env region [k, v] w).1.store region.regionPtr (env.utf8Value k)
      = some c := by
    simp [Region.Put, argAt, hser, World.record, World.regionPut]
  have hkeep := runCalls_store_of_not_writesTo env region.regionPtr (env.utf8Value k) ops
    (Region.Put env region [k, v] w).1 hops
  refine ⟨by simp [Region.Put, argAt, hser], ?_⟩
  have hkey : argAt env [k] 0 = k := rfl
  simp only [Region.Get, hkey, hkeep, hput, hinv]

theorem Get_after_Put_witness :
    sampleEnv.gemfireValueFromV8 (JsValue.string "v") (sampleEnv.getCache sampleRegion.regionPtr)
        = some "v" ∧
      v8ValueFromGemfire sampleEnv (some "v") = JsValue.string "v" ∧
      (Region.Get sampleEnv sampleRegion [JsValue.string "k"]
          (runCalls sampleEnv
            [HostCall.put sampleRegion [JsValue.string "j", JsValue.string "u"],
              HostCall.put sampleRegion [JsValue.string "k", JsValue.function 3],
              HostCall.clear { cacheHandle := JsValue.object 0, regionPtr := 8 },
              HostCall.onPut sampleRegion [JsValue.function 1],
              HostCall.get sampleRegion [JsValue.string "k"]]
            (Region.Put sampleEnv sampleRegion [JsValue.string "k", JsValue.string "v"]
              sampleWorld).1)).2
        = Except.ok (JsValue.string "v") :=
  ⟨rfl, rfl,
    (Get_after_Put sampleEnv sampleRegion (JsValue.string "k") (JsValue.string "v") "v"
      [HostCall.put sampleRegion [JsValue.string "j", JsValue.string "u"],
        HostCall.put sampleRegion [JsValue.string "k", JsValue.function 3],
        HostCall.clear { cacheHandle := JsValue.object 0, regionPtr := 8 },
        HostCall.onPut sampleRegion [JsValue.function 1],
        HostCall.get sampleRegion [JsValue.string "k"]]
      sampleWorld rfl rfl (by decide)).2⟩

end NodeGemfire
